import Mathlib

/-!
# Workout tracker: Progression & Analytics Engine, shallow embedding

A shallow embedding of the decision logic of `src/app.py` (a Flask workout
tracker backed by a SQL log store), together with theorems settling the
frozen claims about its specification.

Modelling conventions:
* The log store (`logs` table) is a `List Row` in insertion order; SQL
  queries become list operations over it.
* Calendar dates are modelled as integers (day numbers); the source stores
  ISO `YYYY-MM-DD` strings whose lexicographic order coincides with
  chronological order, so `MIN(date)`, `ORDER BY date` and day-difference
  arithmetic are faithfully rendered on `ℤ`.
* Python floats are modelled as `ℚ`; Python's `round` (banker's rounding,
  half to even) is `pyRound`, and `round(x, 1)` is `pyRound1`.
* Python `//` on integers is floor division, modelled by `Int.fdiv`.
-/

/-- Python `round(x)`: nearest integer, ties to even (banker's rounding). -/
def pyRound (q : ℚ) : ℤ :=
  let n := ⌊q⌋
  let frac := q - n
  if frac < 1/2 then n
  else if 1/2 < frac then n + 1
  else if n % 2 = 0 then n else n + 1

/-- Python `round(x, 1)`: round to one decimal place. -/
def pyRound1 (q : ℚ) : ℚ := (pyRound (q * 10) : ℚ) / 10

/-- One record of the `logs` table:
`(date, day, exercise, set_number, reps, weight)`. -/
structure Row where
  date : ℤ
  day : String
  exercise : String
  set_number : ℤ
  reps : ℤ
  weight : ℚ
deriving DecidableEq, Repr

/-- The log store: the `logs` table in insertion order. -/
abbrev Store := List Row

/-- `WORKOUT_PLAN` from `src/app.py`: fixed day → ordered exercise list. -/
def WORKOUT_PLAN : List (String × List String) :=
  [("Push",
    ["Incline Dumbbell Press",
     "Flat Press (Barbell or Machine)",
     "Weighted Dips",
     "Incline Fly (DB or Machine)",
     "EZ Bar Skull Crushers",
     "Overhead Rope Extension",
     "Tricep Pressdowns"]),
   ("Pull",
    ["Pull-Ups + Negatives",
     "Chest-Supported T-Bar Row",
     "Lat Pulldown (Neutral/Underhand)",
     "Seated Cable Row",
     "Face Pulls",
     "Incline Dumbbell Curl",
     "EZ Bar Preacher Curl",
     "Hammer Curls"]),
   ("Legs & Shoulders",
    ["Pendulum or Hack Squat",
     "Romanian Deadlift",
     "Leg Extension",
     "Seated/Lying Leg Curl",
     "Standing Calf Raise",
     "Seated Dumbbell Overhead Press",
     "Cable Lateral Raise",
     "Rear Delt Fly",
     "Wide-Grip Upright Row"])]

/-- `get_training_week` from `src/app.py`: `SELECT MIN(date) FROM logs`;
if a first date exists, `((today - start).days // 7) + 1`, else `1`.
`today` is injected as a parameter (the spec's required test seam). -/
def get_training_week (store : Store) (today : ℤ) : ℤ :=
  match (store.map (fun r => r.date)).min? with
  | some start => Int.fdiv (today - start) 7 + 1
  | none => 1

/-- One comparison step of the `ORDER BY date DESC, set_number DESC
LIMIT 1` selection: keep the row maximal in (date, set_number)
lexicographic order; on a full tie the earlier row is kept (tie order is
implementation-defined in SQL). -/
def laterSet (acc : Option Row) (r : Row) : Option Row :=
  match acc with
  | none => some r
  | some b =>
    if b.date < r.date ∨ (b.date = r.date ∧ b.set_number < r.set_number)
    then some r else some b

/-- `last_set_for_exercise` from `src/app.py`:
`SELECT reps, weight FROM logs WHERE exercise=%s
 ORDER BY date DESC, set_number DESC LIMIT 1`. -/
def last_set_for_exercise (store : Store) (exercise : String) : Option (ℤ × ℚ) :=
  ((store.filter (fun r => r.exercise == exercise)).foldl laterSet none).map
    (fun r => (r.reps, r.weight))

/-- `get_next_progression` from `src/app.py`. Floats as `ℚ`:
`0.9 = 9/10`, `2.5 = 5/2`, `20.0 = 20`. -/
def get_next_progression (store : Store) (today : ℤ) (exercise : String) : ℚ × ℤ :=
  let week_number := get_training_week store today
  match last_set_for_exercise store exercise with
  | none => (20, 6)
  | some (last_reps, last_weight) =>
    if week_number % 6 = 0 then
      let deload_w := (pyRound (last_weight * (9/10) / (5/2)) : ℚ) * (5/2)
      (if deload_w < 5/2 then 5/2 else deload_w, 6)
    else if last_reps ≥ 10 then
      (pyRound1 (last_weight + 5/2), 6)
    else
      (last_weight, last_reps + 1)

/-- `epley_1rm` from `src/app.py`: `weight * (1 + reps/30.0)`. -/
def epley_1rm (weight : ℚ) (reps : ℤ) : ℚ := weight * (1 + (reps : ℚ) / 30)

/-- Ordering used by `fetch_exercise_history`:
`ORDER BY date ASC, set_number ASC`. -/
def histLe (a b : Row) : Prop :=
  a.date < b.date ∨ (a.date = b.date ∧ a.set_number ≤ b.set_number)

instance : DecidableRel histLe := fun a b => by
  unfold histLe; infer_instance

/-- `fetch_exercise_history` from `src/app.py`: all rows for the exercise,
ascending by date then set number. -/
def fetch_exercise_history (store : Store) (exercise : String) : List Row :=
  List.insertionSort histLe (store.filter (fun r => r.exercise == exercise))

/-- The `(set_number, reps, weight)` triple kept per date by
`group_by_date`. -/
structure SetEntry where
  set_number : ℤ
  reps : ℤ
  weight : ℚ
deriving DecidableEq, Repr

/-- One step of the `by_date.setdefault(d, []).append((s, r, w))` loop:
append the entry to the group of key `d`, creating the group at the end
if the key is new (Python dicts preserve first-occurrence key order). -/
def insertGroup (d : ℤ) (v : SetEntry) :
    List (ℤ × List SetEntry) → List (ℤ × List SetEntry)
  | [] => [(d, [v])]
  | (k, vs) :: rest =>
    if k = d then (k, vs ++ [v]) :: rest else (k, vs) :: insertGroup d v rest

/-- `group_by_date` from `src/app.py`: group rows by date, preserving
within-date insertion order. -/
def group_by_date (rows : List Row) : List (ℤ × List SetEntry) :=
  rows.foldl (fun acc r => insertGroup r.date ⟨r.set_number, r.reps, r.weight⟩ acc) []

/-- `by_date[d]`: the group stored under key `d` (empty if absent). -/
def lookupGroup : List (ℤ × List SetEntry) → ℤ → List SetEntry
  | [], _ => []
  | (k, vs) :: rest, d => if k = d then vs else lookupGroup rest d

/-- Python `max`/`sum`-style maximum of a list (groups are nonempty, so the
`[]` default is never reached by the chart code). -/
def listMax : List ℚ → ℚ
  | [] => 0
  | x :: xs => xs.foldl max x

/-- Outcome of the `/chart/<kind>` route, abstracting the rendered PNGs:
missing `exercise` query parameter (404), the "No data" placeholder image,
the "Unknown chart" image, or a plotted series of `(date, value)` points. -/
inductive ChartResult
  | badRequest
  | noData
  | unknownMetric
  | series (pts : List (ℤ × ℚ))
deriving DecidableEq, Repr

/-- The per-date metric value computed inside the chart loop. -/
def metricValue (kind : String) (sets : List SetEntry) : ℚ :=
  if kind == "top_weight" then listMax (sets.map (fun e => e.weight))
  else if kind == "volume" then (sets.map (fun e => e.weight * (e.reps : ℚ))).sum
  else listMax (sets.map (fun e => epley_1rm e.weight e.reps))

/-- The chart computation on an already-fetched history, from the body of
`chart` in `src/app.py`: empty rows give the "No data" image; otherwise the
rows are grouped by date, the dates sorted ascending, and the per-date
metric computed. An unrecognised `kind` hits the `else` branch of the loop
on its first iteration (the date list is nonempty here since `rows` is)
and returns the "Unknown chart" image. -/
def chartRows (rows : List Row) (kind : String) : ChartResult :=
  if rows.isEmpty then .noData
  else
    let by_date := group_by_date rows
    let dates_sorted := List.insertionSort (fun a b : ℤ => a ≤ b) (by_date.map Prod.fst)
    if kind == "top_weight" ∨ kind == "volume" ∨ kind == "e1rm" then
      .series (dates_sorted.map (fun d => (d, metricValue kind (lookupGroup by_date d))))
    else .unknownMetric

/-- The `/chart/<kind>` route of `src/app.py`: 404 without an `exercise`
query parameter, otherwise `chartRows` on the fetched history. The
exercise identifier is never validated against `WORKOUT_PLAN`. -/
def chart (store : Store) (kind : String) (exercise? : Option String) : ChartResult :=
  match exercise? with
  | none => .badRequest
  | some ex => chartRows (fetch_exercise_history store ex) kind

/-- A read or write issued to the Log Store (one SQL statement of
`src/app.py`): the `MIN(date)` read, the last-set read, the full-history
read, or an `INSERT`. -/
inductive StoreCall
  | minDate
  | lastSet (exercise : String)
  | historyQ (exercise : String)
  | insert (row : Row)
deriving DecidableEq, Repr

/-- Outcome of `request.form.get(f"{exercise}_reps{s}", "").strip()`
followed by Python `int(...)`: blank field, unparseable text, or an
integer. -/
inductive RepsField
  | blank
  | malformed
  | value (n : ℤ)
deriving DecidableEq, Repr

/-- Outcome of `request.form.get(f"{exercise}_weight{s}", "").strip()`
followed by Python `float(...)`: blank field, unparseable text, or a
number. -/
inductive WeightField
  | blank
  | malformed
  | value (q : ℚ)
deriving DecidableEq, Repr

/-- Result of the `/weekly/<day>` route, abstracting the HTTP responses:
redirect to the index (unknown day), redirect back to the day page
(after a POST), or the rendered page (GET). -/
inductive WeeklyResp
  | redirectIndex
  | redirectWeekly
  | page
deriving DecidableEq, Repr

/-- Output of one `/weekly/<day>` request: the response, the store after
the request, and the store calls issued, in order. -/
structure WeeklyOut where
  resp : WeeklyResp
  store : Store
  calls : List StoreCall
deriving DecidableEq, Repr

/-- One iteration of the inner set loop in the POST branch of `weekly`
(`src/app.py` lines 156-173): skip the set if either field is blank
(`if reps_val and weight_val` fails) or unparseable (`int`/`float`
raises, caught by the bare `except: pass`), or if the positivity check
fails. Otherwise `INSERT` the row; when the store's append fails
(`appendFails`), the raised exception is caught by the same bare
`except: pass`, so the state is returned unchanged and no error
surfaces. The state is the store paired with the calls issued so far. -/
def processSet (appendFails : Bool) (day exercise : String) (date : ℤ) (s : ℤ)
    (rf : RepsField) (wf : WeightField) (st : Store × List StoreCall) :
    Store × List StoreCall :=
  match rf, wf with
  | .value reps, .value weight =>
    if 0 < reps ∧ 0 < weight then
      if appendFails then
        (st.1, st.2 ++ [.insert ⟨date, day, exercise, s, reps, weight⟩])
      else
        (st.1 ++ [⟨date, day, exercise, s, reps, weight⟩],
         st.2 ++ [.insert ⟨date, day, exercise, s, reps, weight⟩])
    else st
  | _, _ => st

/-- The `/weekly/<day>` route of `src/app.py`. An unknown day redirects
to the index before any store access. Otherwise `get_training_week`
issues its `MIN(date)` read; a POST then runs the batch-logging loop
over the day's exercises and set slots `1..3` (`for s in range(1, 4)`),
while a GET computes a recommendation per exercise, each
`get_next_progression` re-reading `MIN(date)` and the exercise's last
set. `today` and the form are injected parameters; `appendFails` makes
every `INSERT` raise, as a store outage would. -/
def weekly (store : Store) (appendFails : Bool) (isPost : Bool) (day : String)
    (today : ℤ) (form : String → ℤ → RepsField × WeightField) : WeeklyOut :=
  match WORKOUT_PLAN.find? (fun p => p.1 == day) with
  | none => ⟨.redirectIndex, store, []⟩
  | some (_, exs) =>
    if isPost then
      let res := exs.foldl (fun acc ex =>
        ([1, 2, 3] : List ℤ).foldl (fun acc2 s =>
          processSet appendFails day ex today s (form ex s).1 (form ex s).2 acc2) acc)
        (store, [.minDate])
      ⟨.redirectWeekly, res.1, res.2⟩
    else
      ⟨.page, store,
       StoreCall.minDate :: (exs.map (fun ex => [StoreCall.minDate, .lastSet ex])).flatten⟩

/-- The `/history/<exercise>` route of `src/app.py`: fetches the full
history for the supplied identifier without validating it against the
plan; returns the rows and the single history query issued. -/
def history (store : Store) (exercise : String) : List Row × List StoreCall :=
  (fetch_exercise_history store exercise, [.historyQ exercise])

/-- Store calls issued by the `/chart/<kind>` route: none when the
`exercise` query parameter is missing (the 404 comes first), otherwise
the history query for whatever identifier was supplied, unvalidated. -/
def chartCalls (exercise? : Option String) : List StoreCall :=
  match exercise? with
  | none => []
  | some ex => [.historyQ ex]

/-- A one-row sample store used to instantiate theorems on concrete
inputs. -/
def sampleStore : Store := [⟨2, "Push", "Weighted Dips", 1, 8, 50⟩]

instance : Std.Antisymm (fun x1 x2 : ℤ => x1 ≤ x2) :=
  ⟨fun h h2 => le_antisymm h h2⟩

/-- A submission form filling only set 1 of the first Push exercise with
8 reps at weight 50; every other field is blank. -/
def pushForm (ex : String) (s : ℤ) : RepsField × WeightField :=
  if ex = "Incline Dumbbell Press" ∧ s = 1 then (.value 8, .value 50)
  else (.blank, .blank)

/-- `pushForm` plus junk data in a fourth set slot, which the handler
never reads. -/
def pushFormExtra (ex : String) (s : ℤ) : RepsField × WeightField :=
  if s = 4 then (.value 99, .value 99) else pushForm ex s

/-- **C7.** `currentWeekNumber` returns 1 when no sets exist; otherwise,
with `e` the minimum date across all logged sets regardless of exercise
or day, it returns `fdiv (today - e) 7 + 1` (floor of the day difference
divided by 7, plus one), and under the precondition `e ≤ today` the
result is at least 1. -/
theorem C7_current_week_number (store : Store) (today e : ℤ)
    (hmin : (store.map (fun r => r.date)).min? = some e)
    (htoday : e ≤ today) :
    get_training_week [] today = 1 ∧
    e ∈ store.map (fun r => r.date) ∧
    (∀ r ∈ store, e ≤ r.date) ∧
    get_training_week store today = Int.fdiv (today - e) 7 + 1 ∧
    1 ≤ get_training_week store today := by
  have hchar : e ∈ store.map (fun r => r.date) ∧
      ∀ b ∈ store.map (fun r => r.date), e ≤ b := by
    rw [List.min?_eq_some_iff] at hmin
    · exact hmin
    · exact fun x => le_refl x
    · exact fun a b => min_choice a b
    · exact fun a b c => le_min_iff
  have hgw : get_training_week store today = Int.fdiv (today - e) 7 + 1 := by
    simp only [get_training_week, hmin]
  refine ⟨by simp [get_training_week], hchar.1, ?_, hgw, ?_⟩
  · intro r hr
    exact hchar.2 _ (List.mem_map_of_mem _ hr)
  · rw [hgw, Int.fdiv_eq_ediv _ (by norm_num)]
    omega

/-- Witness for C7: the one-row store with date 2, queried at day 9,
gives week `fdiv 7 7 + 1 = 2`. -/
theorem C7_current_week_number_witness :
    get_training_week [] 9 = 1 ∧
    (2 : ℤ) ∈ sampleStore.map (fun r => r.date) ∧
    (∀ r ∈ sampleStore, (2:ℤ) ≤ r.date) ∧
    get_training_week sampleStore 9 = Int.fdiv (9 - 2) 7 + 1 ∧
    1 ≤ get_training_week sampleStore 9 :=
  C7_current_week_number sampleStore 9 2 (by rfl) (by decide)

/-- **C8.** An exercise with no logged history gets the cold-start
target `(20.0, 6)`: for any store containing no row for the exercise and
any `today` (hence any current week number), `get_next_progression`
returns exactly `(20, 6)`. -/
theorem C8_cold_start_default (store : Store) (today : ℤ) (exercise : String)
    (h : ∀ r ∈ store, r.exercise ≠ exercise) :
    get_next_progression store today exercise = (20, 6) := by
  have hf : store.filter (fun r => r.exercise == exercise) = [] := by
    rw [List.filter_eq_nil_iff]
    intro r hr
    simpa using h r hr
  simp [get_next_progression, last_set_for_exercise, hf]

/-- Witness for C8: the empty store. -/
theorem C8_cold_start_default_witness :
    get_next_progression [] 0 "Weighted Dips" = (20, 6) :=
  C8_cold_start_default [] 0 "Weighted Dips" (by simp)

/-- **C1.** In a deload week (`currentWeek % 6 = 0`), with a last logged
set of positive weight, the next target is exactly 6 reps independent of
`lastReps`, at weight `max 2.5 (round((lastWeight * 0.9) / 2.5) * 2.5)`:
10% off, rounded to the nearest 2.5 unit (Python rounding, ties to
even), floored at 2.5. -/
theorem C1_deload_week (store : Store) (today : ℤ) (exercise : String)
    (lastReps : ℤ) (lastWeight : ℚ)
    (hlast : last_set_for_exercise store exercise = some (lastReps, lastWeight))
    (_hw : 0 < lastWeight)
    (hweek : get_training_week store today % 6 = 0) :
    get_next_progression store today exercise =
      (max (5/2) ((pyRound (lastWeight * (9/10) / (5/2)) : ℚ) * (5/2)), 6) := by
  have heval : get_next_progression store today exercise =
      (if (pyRound (lastWeight * (9/10) / (5/2)) : ℚ) * (5/2) < 5/2 then (5/2 : ℚ)
       else (pyRound (lastWeight * (9/10) / (5/2)) : ℚ) * (5/2), 6) := by
    simp [get_next_progression, hlast, hweek]
  rw [heval]
  rcases lt_or_le ((pyRound (lastWeight * (9/10) / (5/2)) : ℚ) * (5/2)) (5/2 : ℚ) with h | h
  · rw [if_pos h, max_eq_left h.le]
  · rw [if_neg (not_lt.mpr h), max_eq_right h]

/-- Witness for C1: store with last set `(8 reps, 50)` at date 2,
today 37, so the week is `fdiv 35 7 + 1 = 6`, a deload week. -/
theorem C1_deload_week_witness :
    get_next_progression sampleStore 37 "Weighted Dips" =
      (max (5/2) ((pyRound ((50:ℚ) * (9/10) / (5/2)) : ℚ) * (5/2)), 6) :=
  C1_deload_week sampleStore 37 "Weighted Dips" 8 50 (by rfl) (by norm_num) (by decide)

/-- `pyRound` of an integer is that integer. -/
theorem pyRound_intCast (n : ℤ) : pyRound (n : ℚ) = n := by
  unfold pyRound
  norm_num

/-- **C2 (amended).** In a non-deload week, `nextTarget` returns
`(lastWeight, lastReps + 1)` when `lastReps < 10`; when `lastReps ≥ 10`
it returns `(round(lastWeight + 2.5, 1), 6)` — the sum rounded to one
decimal place, as the code does — which coincides with the claimed
`(lastWeight + 2.5, 6)` whenever `lastWeight` is a whole multiple of
0.1. -/
theorem C2_progressive_overload (store : Store) (today : ℤ) (exercise : String)
    (lastReps : ℤ) (lastWeight : ℚ)
    (hlast : last_set_for_exercise store exercise = some (lastReps, lastWeight))
    (hweek : get_training_week store today % 6 ≠ 0) :
    (lastReps < 10 →
      get_next_progression store today exercise = (lastWeight, lastReps + 1)) ∧
    (10 ≤ lastReps →
      get_next_progression store today exercise = (pyRound1 (lastWeight + 5/2), 6)) ∧
    (10 ≤ lastReps → (∃ k : ℤ, lastWeight = (k : ℚ) / 10) →
      get_next_progression store today exercise = (lastWeight + 5/2, 6)) := by
  refine ⟨fun hlt => ?_, fun hge => ?_, fun hge hmult => ?_⟩
  · simp [get_next_progression, hlast, hweek, not_le.mpr hlt]
  · simp [get_next_progression, hlast, hweek, hge]
  · have : pyRound1 (lastWeight + 5/2) = lastWeight + 5/2 := by
      obtain ⟨k, hk⟩ := hmult
      have h10 : (lastWeight + 5/2) * 10 = ((k + 25 : ℤ) : ℚ) := by
        rw [hk]; push_cast; ring
      unfold pyRound1
      rw [h10, pyRound_intCast]
      push_cast
      rw [hk]; ring
    simp [get_next_progression, hlast, hweek, hge, this]

/-- **C2, counterexample.** With last set `(reps 10, weight 20.03)` at
week 1 (not a deload week) the code returns weight
`round(20.03 + 2.5, 1) = 22.5`, not `20.03 + 2.5 = 22.53` as the claim
states. -/
theorem C2_counterexample :
    get_next_progression [⟨0, "Push", "Weighted Dips", 1, 10, 2003/100⟩] 0 "Weighted Dips"
      ≠ (2003/100 + 5/2, 6) := by
  have heval :
      get_next_progression [⟨0, "Push", "Weighted Dips", 1, 10, 2003/100⟩] 0 "Weighted Dips"
        = (45/2, 6) := by
    have hlast : last_set_for_exercise [⟨0, "Push", "Weighted Dips", 1, 10, 2003/100⟩]
        "Weighted Dips" = some (10, 2003/100) := by rfl
    have hweek : get_training_week [⟨0, "Push", "Weighted Dips", 1, 10, 2003/100⟩] 0 = 1 := by
      simp [get_training_week]
    have hr : pyRound1 (2003/100 + 5/2) = 45/2 := by
      norm_num [pyRound1, pyRound]
    simp [get_next_progression, hlast, hweek, hr]
  rw [heval]
  intro hcontra
  have h1 : (45/2 : ℚ) = 2003/100 + 5/2 := congrArg Prod.fst hcontra
  norm_num at h1

/-- Witness for C2 (amended): last set `(8 reps, 50)` at week 2
(`today = 9`, not a deload week) gives `(50, 9)`; a variant store with
10 reps confirms the rounded overload branch. -/
theorem C2_progressive_overload_witness :
    get_next_progression sampleStore 9 "Weighted Dips" = (50, 8 + 1) :=
  (C2_progressive_overload sampleStore 9 "Weighted Dips" 8 50 (by rfl)
    (by decide)).1 (by decide)

theorem lookupGroup_insertGroup (g : List (ℤ × List SetEntry)) (d d' : ℤ) (v : SetEntry) :
    lookupGroup (insertGroup d v g) d' =
      if d' = d then lookupGroup g d' ++ [v] else lookupGroup g d' := by
  induction g with
  | nil =>
    by_cases h : d' = d
    · simp [insertGroup, lookupGroup, h]
    · simp [insertGroup, lookupGroup, h, Ne.symm h]
  | cons p rest ih =>
    obtain ⟨k, vs⟩ := p
    by_cases hkd : k = d
    · subst hkd
      by_cases h : d' = k
      · subst h
        simp [insertGroup, lookupGroup]
      · simp [insertGroup, lookupGroup, h, Ne.symm h]
    · rw [insertGroup, if_neg hkd]
      by_cases h : k = d'
      · have hne : d' ≠ d := fun hc => hkd (h.trans hc)
        simp [lookupGroup, h, hne]
      · simp [lookupGroup, h, ih]

theorem mem_keys_insertGroup (g : List (ℤ × List SetEntry)) (d d' : ℤ) (v : SetEntry) :
    d' ∈ (insertGroup d v g).map Prod.fst ↔ d' = d ∨ d' ∈ g.map Prod.fst := by
  induction g with
  | nil => simp [insertGroup]
  | cons p rest ih =>
    obtain ⟨k, vs⟩ := p
    by_cases h : k = d
    · subst h
      simp only [insertGroup, eq_self_iff_true, if_true, List.map_cons, List.mem_cons]
      tauto
    · simp only [insertGroup, if_neg h, List.map_cons, List.mem_cons, ih]
      tauto

theorem nodup_keys_insertGroup (g : List (ℤ × List SetEntry)) (d : ℤ) (v : SetEntry)
    (h : (g.map Prod.fst).Nodup) : ((insertGroup d v g).map Prod.fst).Nodup := by
  induction g with
  | nil => simp [insertGroup]
  | cons p rest ih =>
    obtain ⟨k, vs⟩ := p
    simp only [List.map_cons, List.nodup_cons] at h
    by_cases hkd : k = d
    · subst hkd
      simp only [insertGroup, eq_self_iff_true, if_true, List.map_cons, List.nodup_cons]
      exact h
    · simp only [insertGroup, if_neg hkd, List.map_cons, List.nodup_cons]
      refine ⟨?_, ih h.2⟩
      rw [mem_keys_insertGroup]
      push_neg
      exact ⟨hkd, h.1⟩

theorem lookupGroup_group_fold (rows : List Row) (acc : List (ℤ × List SetEntry)) (d : ℤ) :
    lookupGroup
      (rows.foldl (fun a r => insertGroup r.date ⟨r.set_number, r.reps, r.weight⟩ a) acc) d =
    lookupGroup acc d ++
      (rows.filter (fun r => r.date == d)).map
        (fun r => (⟨r.set_number, r.reps, r.weight⟩ : SetEntry)) := by
  induction rows generalizing acc with
  | nil => simp
  | cons r rest ih =>
    rw [List.foldl_cons, ih, lookupGroup_insertGroup]
    by_cases h : r.date = d
    · rw [if_pos h.symm, List.filter_cons_of_pos (by simp [h]), List.map_cons,
        List.append_assoc, List.singleton_append]
    · rw [if_neg (fun hc => h hc.symm), List.filter_cons_of_neg (by simp [h])]

theorem mem_keys_group_fold (rows : List Row) (acc : List (ℤ × List SetEntry)) (d : ℤ) :
    d ∈ (rows.foldl (fun a r => insertGroup r.date ⟨r.set_number, r.reps, r.weight⟩ a) acc).map
        Prod.fst ↔
      d ∈ acc.map Prod.fst ∨ d ∈ rows.map (fun r => r.date) := by
  induction rows generalizing acc with
  | nil => simp
  | cons r rest ih =>
    rw [List.foldl_cons, ih, mem_keys_insertGroup]
    simp only [List.map_cons, List.mem_cons]
    tauto

theorem nodup_keys_group_fold (rows : List Row) (acc : List (ℤ × List SetEntry))
    (h : (acc.map Prod.fst).Nodup) :
    ((rows.foldl (fun a r => insertGroup r.date ⟨r.set_number, r.reps, r.weight⟩ a) acc).map
      Prod.fst).Nodup := by
  induction rows generalizing acc with
  | nil => simpa
  | cons r rest ih =>
    rw [List.foldl_cons]
    exact ih _ (nodup_keys_insertGroup _ _ _ h)

theorem lookupGroup_group_by_date (rows : List Row) (d : ℤ) :
    lookupGroup (group_by_date rows) d =
      (rows.filter (fun r => r.date == d)).map
        (fun r => (⟨r.set_number, r.reps, r.weight⟩ : SetEntry)) := by
  have h := lookupGroup_group_fold rows [] d
  simpa [group_by_date, lookupGroup] using h

theorem mem_keys_group_by_date (rows : List Row) (d : ℤ) :
    d ∈ (group_by_date rows).map Prod.fst ↔ d ∈ rows.map (fun r => r.date) := by
  have h := mem_keys_group_fold rows [] d
  simpa [group_by_date] using h

theorem nodup_keys_group_by_date (rows : List Row) :
    ((group_by_date rows).map Prod.fst).Nodup := by
  have h := nodup_keys_group_fold rows [] (by simp)
  simpa [group_by_date] using h

/-- **C3.** For every nonempty exercise history and valid metric kind,
the chart computation produces a series with exactly one point per
distinct date of the history, in strictly ascending date order, whose
value at each date is the maximum weight (`top_weight`), the sum of
`weight * reps` (`volume`), or the maximum Epley value
`weight * (1 + reps/30)` (`e1rm`) over that date's sets. -/
theorem C3_compute_series (rows : List Row) (kind : String)
    (hne : rows ≠ [])
    (hkind : kind = "top_weight" ∨ kind = "volume" ∨ kind = "e1rm") :
    ∃ pts : List (ℤ × ℚ),
      chartRows rows kind = .series pts ∧
      (pts.map Prod.fst).Sorted (fun a b : ℤ => a < b) ∧
      (∀ d : ℤ, d ∈ pts.map Prod.fst ↔ d ∈ rows.map (fun r => r.date)) ∧
      ∀ p ∈ pts,
        (kind = "top_weight" →
          p.2 = listMax ((rows.filter (fun r => r.date == p.1)).map (fun r => r.weight))) ∧
        (kind = "volume" →
          p.2 = ((rows.filter (fun r => r.date == p.1)).map
            (fun r => r.weight * (r.reps : ℚ))).sum) ∧
        (kind = "e1rm" →
          p.2 = listMax ((rows.filter (fun r => r.date == p.1)).map
            (fun r => epley_1rm r.weight r.reps))) := by
  have hempty : rows.isEmpty = false := by
    cases rows with
    | nil => exact absurd rfl hne
    | cons a l => rfl
  have hcond : (kind == "top_weight" ∨ kind == "volume" ∨ kind == "e1rm") := by
    rcases hkind with h | h | h <;> subst h <;> simp
  refine ⟨(List.insertionSort (fun a b : ℤ => a ≤ b)
      ((group_by_date rows).map Prod.fst)).map
        (fun d => (d, metricValue kind (lookupGroup (group_by_date rows) d))), ?_, ?_, ?_, ?_⟩
  · simp only [chartRows, hempty, Bool.false_eq_true, if_false, if_pos hcond]
  · have hperm := List.perm_insertionSort (fun a b : ℤ => a ≤ b)
      ((group_by_date rows).map Prod.fst)
    have hnodup : (List.insertionSort (fun a b : ℤ => a ≤ b)
        ((group_by_date rows).map Prod.fst)).Nodup :=
      hperm.nodup_iff.mpr (nodup_keys_group_by_date rows)
    have hsle : (List.insertionSort (fun a b : ℤ => a ≤ b)
        ((group_by_date rows).map Prod.fst)).Sorted (fun a b : ℤ => a ≤ b) :=
      List.sorted_insertionSort _ _
    have hfst : ((List.insertionSort (fun a b : ℤ => a ≤ b)
        ((group_by_date rows).map Prod.fst)).map
          (fun d => (d, metricValue kind (lookupGroup (group_by_date rows) d)))).map
            Prod.fst =
        List.insertionSort (fun a b : ℤ => a ≤ b) ((group_by_date rows).map Prod.fst) := by
      simp [List.map_map, Function.comp_def]
    rw [hfst]
    exact hsle.lt_of_le hnodup
  · intro d
    have hfst : ((List.insertionSort (fun a b : ℤ => a ≤ b)
        ((group_by_date rows).map Prod.fst)).map
          (fun d => (d, metricValue kind (lookupGroup (group_by_date rows) d)))).map
            Prod.fst =
        List.insertionSort (fun a b : ℤ => a ≤ b) ((group_by_date rows).map Prod.fst) := by
      simp [List.map_map, Function.comp_def]
    rw [hfst]
    rw [(List.perm_insertionSort (fun a b : ℤ => a ≤ b)
      ((group_by_date rows).map Prod.fst)).mem_iff]
    exact mem_keys_group_by_date rows d
  · intro p hp
    obtain ⟨d, _hd, rfl⟩ := List.mem_map.mp hp
    refine ⟨fun hk => ?_, fun hk => ?_, fun hk => ?_⟩ <;> subst hk <;>
      simp [metricValue, lookupGroup_group_by_date, List.map_map, Function.comp_def]

/-- Witness for C3: a two-row history on dates 1 and 1 (two sets of one
session) with the `volume` metric. -/
theorem C3_compute_series_witness :
    ∃ pts : List (ℤ × ℚ),
      chartRows [⟨1, "Push", "Weighted Dips", 1, 8, 50⟩,
                 ⟨1, "Push", "Weighted Dips", 2, 10, 45⟩] "volume" = .series pts ∧
      (pts.map Prod.fst).Sorted (fun a b : ℤ => a < b) ∧
      (∀ d : ℤ, d ∈ pts.map Prod.fst ↔
        d ∈ ([⟨1, "Push", "Weighted Dips", 1, 8, 50⟩,
              ⟨1, "Push", "Weighted Dips", 2, 10, 45⟩] : List Row).map (fun r => r.date)) ∧
      ∀ p ∈ pts,
        ("volume" = "top_weight" →
          p.2 = listMax ((([⟨1, "Push", "Weighted Dips", 1, 8, 50⟩,
              ⟨1, "Push", "Weighted Dips", 2, 10, 45⟩] : List Row).filter
                (fun r => r.date == p.1)).map (fun r => r.weight))) ∧
        ("volume" = "volume" →
          p.2 = ((([⟨1, "Push", "Weighted Dips", 1, 8, 50⟩,
              ⟨1, "Push", "Weighted Dips", 2, 10, 45⟩] : List Row).filter
                (fun r => r.date == p.1)).map (fun r => r.weight * (r.reps : ℚ))).sum) ∧
        ("volume" = "e1rm" →
          p.2 = listMax ((([⟨1, "Push", "Weighted Dips", 1, 8, 50⟩,
              ⟨1, "Push", "Weighted Dips", 2, 10, 45⟩] : List Row).filter
                (fun r => r.date == p.1)).map (fun r => epley_1rm r.weight r.reps))) :=
  C3_compute_series _ "volume" (by simp) (Or.inr (Or.inl rfl))

/-- **C5 (amended).** For a *nonempty* history, an invalid metric kind
yields the explicit unknown-metric outcome, which is distinct from the
no-data outcome; an empty history yields the no-data placeholder for
every metric kind, valid or not — in particular an invalid metric on an
empty history is reported as no-data, not as an unknown metric, because
the code checks for data first. -/
theorem C5_unknown_metric (rows : List Row) (kind : String)
    (hne : rows ≠ [])
    (hbad : kind ≠ "top_weight" ∧ kind ≠ "volume" ∧ kind ≠ "e1rm") :
    chartRows rows kind = .unknownMetric ∧
    (∀ k : String, chartRows [] k = .noData) ∧
    ChartResult.unknownMetric ≠ ChartResult.noData := by
  refine ⟨?_, fun k => rfl, by decide⟩
  have hempty : rows.isEmpty = false := by
    cases rows with
    | nil => exact absurd rfl hne
    | cons a l => rfl
  have hcond : ¬((kind == "top_weight") ∨ (kind == "volume") ∨ (kind == "e1rm")) := by
    push_neg
    simpa using hbad
  simp only [chartRows, hempty, Bool.false_eq_true, if_false, if_neg hcond]

/-- **C5, counterexample.** On an empty history with the invalid metric
identifier "bogus", the chart route answers with the no-data
placeholder, not the unknown-metric signal the claim requires for every
invalid metric. -/
theorem C5_counterexample :
    chart [] "bogus" (some "Weighted Dips") = .noData ∧
    chart [] "bogus" (some "Weighted Dips") ≠ .unknownMetric :=
  ⟨rfl, by decide⟩

/-- Witness for C5 (amended): a one-row history with metric "bogus". -/
theorem C5_unknown_metric_witness :
    chartRows sampleStore "bogus" = .unknownMetric ∧
    (∀ k : String, chartRows [] k = .noData) ∧
    ChartResult.unknownMetric ≠ ChartResult.noData :=
  C5_unknown_metric sampleStore "bogus" (by simp [sampleStore]) (by decide)

/-- **C6 (amended).** A request for an unknown day is rejected by the
weekly route before any store access (no store call is issued). The
history and chart routes, however, do not validate the exercise
identifier against the plan: history always issues its history query for
the supplied identifier, and chart does so whenever the `exercise`
parameter is present, rejecting only a missing parameter before store
access. -/
theorem C6_unknown_identifier (store : Store) (appendFails isPost : Bool)
    (day : String) (today : ℤ) (form : String → ℤ → RepsField × WeightField)
    (hday : ∀ p ∈ WORKOUT_PLAN, p.1 ≠ day) :
    weekly store appendFails isPost day today form = ⟨.redirectIndex, store, []⟩ ∧
    (∀ ex, (history store ex).2 = [.historyQ ex]) ∧
    chartCalls none = [] ∧
    (∀ ex, chartCalls (some ex) = [.historyQ ex]) := by
  refine ⟨?_, fun ex => rfl, rfl, fun ex => rfl⟩
  have hfind : WORKOUT_PLAN.find? (fun p => p.1 == day) = none := by
    rw [List.find?_eq_none]
    intro p hp
    simpa using hday p hp
  simp [weekly, hfind]

/-- **C6, counterexample.** "Back Squat" is on no day of the plan, yet
the history route still issues a store query for it: the unknown
exercise identifier is not rejected before store access. -/
theorem C6_counterexample :
    (∀ p ∈ WORKOUT_PLAN, "Back Squat" ∉ p.2) ∧
    (history [] "Back Squat").2 ≠ [] :=
  ⟨by decide, by decide⟩

/-- Witness for C6 (amended): the unknown day "Rest Day". -/
theorem C6_unknown_identifier_witness :
    weekly [] false true "Rest Day" 0 (fun _ _ => (.blank, .blank)) =
      ⟨.redirectIndex, [], []⟩ ∧
    (∀ ex, (history ([] : Store) ex).2 = [.historyQ ex]) ∧
    chartCalls none = [] ∧
    (∀ ex, chartCalls (some ex) = [.historyQ ex]) :=
  C6_unknown_identifier [] false true "Rest Day" 0 (fun _ _ => (.blank, .blank))
    (by decide)

/-- **C4 (code bug).** The bare `except: pass` in the batch-logging loop
of `weekly` swallows store failures on `INSERT`: when every append
raises, submitting one valid set for the Push day still returns the
normal redirect with the store unchanged — the failed set is silently
treated as skipped — whereas the same request against a working store
appends the row. The attempted `INSERT` call is issued in both runs. -/
theorem C4_append_failure_swallowed :
    (weekly [] true true "Push" 0 pushForm).resp = .redirectWeekly ∧
    (weekly [] true true "Push" 0 pushForm).store = [] ∧
    (weekly [] true true "Push" 0 pushForm).calls =
      [.minDate, .insert ⟨0, "Push", "Incline Dumbbell Press", 1, 8, 50⟩] ∧
    (weekly [] false true "Push" 0 pushForm).store =
      [⟨0, "Push", "Incline Dumbbell Press", 1, 8, 50⟩] := by
  refine ⟨rfl, by decide, by decide, by decide⟩

theorem laterSet_cases (acc : Option Row) (r : Row) :
    laterSet acc r = acc ∨ laterSet acc r = some r := by
  cases acc with
  | none => exact Or.inr rfl
  | some b =>
    rw [laterSet]
    split
    · exact Or.inr rfl
    · exact Or.inl rfl

theorem foldl_laterSet_cases (l : List Row) (acc : Option Row) :
    l.foldl laterSet acc = acc ∨ ∃ b ∈ l, l.foldl laterSet acc = some b := by
  induction l generalizing acc with
  | nil => exact Or.inl rfl
  | cons x xs ih =>
    rw [List.foldl_cons]
    rcases ih (laterSet acc x) with h | ⟨b, hb, h⟩
    · rcases laterSet_cases acc x with h2 | h2
      · left
        rw [h, h2]
      · right
        exact ⟨x, List.mem_cons_self x xs, by rw [h, h2]⟩
    · right
      exact ⟨b, List.mem_cons_of_mem _ hb, h⟩

/-- **C9 (amended).** Appending a valid set and then querying last-set
for its exercise returns the appended reps and weight, provided every
existing record for that exercise is lexicographically earlier in
(date, set_number) than the appended one — as in the app's flow, which
always logs under today's date with fresh set numbers. Without that
proviso the pre-existing later record wins (see the counterexample). -/
theorem C9_round_trip (store : Store) (row : Row)
    (_hreps : 0 < row.reps) (_hweight : 0 < row.weight)
    (hlater : ∀ r ∈ store, r.exercise = row.exercise →
      r.date < row.date ∨ (r.date = row.date ∧ r.set_number < row.set_number)) :
    last_set_for_exercise (store ++ [row]) row.exercise =
      some (row.reps, row.weight) := by
  have hfilter : (store ++ [row]).filter (fun r => r.exercise == row.exercise) =
      store.filter (fun r => r.exercise == row.exercise) ++ [row] := by
    rw [List.filter_append]
    simp
  rw [last_set_for_exercise, hfilter, List.foldl_append, List.foldl_cons, List.foldl_nil]
  rcases foldl_laterSet_cases (store.filter (fun r => r.exercise == row.exercise)) none
    with h | ⟨b, hb, h⟩
  · rw [h]
    rfl
  · rw [h]
    have hbs := List.mem_filter.mp hb
    have hbex : b.exercise = row.exercise := by simpa using hbs.2
    have hlt := hlater b hbs.1 hbex
    rw [laterSet, if_pos hlt]
    rfl

/-- **C9, counterexample.** The store already holds a row for the
exercise at date 2; appending a valid set dated 1 and querying last-set
returns the pre-existing row's `(5, 100)`, not the appended `(8, 50)`. -/
theorem C9_counterexample :
    (0 : ℤ) < 8 ∧ (0 : ℚ) < 50 ∧
    last_set_for_exercise
      ([⟨2, "Push", "Weighted Dips", 1, 5, 100⟩] ++ [⟨1, "Push", "Weighted Dips", 1, 8, 50⟩])
      "Weighted Dips" = some (5, 100) ∧
    last_set_for_exercise
      ([⟨2, "Push", "Weighted Dips", 1, 5, 100⟩] ++ [⟨1, "Push", "Weighted Dips", 1, 8, 50⟩])
      "Weighted Dips" ≠ some (8, 50) :=
  ⟨by decide, by decide, by decide, by decide⟩

/-- Witness for C9 (amended): appending a later-dated set on top of the
sample store. -/
theorem C9_round_trip_witness :
    last_set_for_exercise (sampleStore ++ [⟨3, "Push", "Weighted Dips", 1, 9, 55⟩])
      "Weighted Dips" = some (9, 55) :=
  C9_round_trip sampleStore ⟨3, "Push", "Weighted Dips", 1, 9, 55⟩ (by decide) (by decide)
    (by decide)

theorem processSet_store_sub (appendFails : Bool) (day ex : String) (date s : ℤ)
    (rf : RepsField) (wf : WeightField) (st : Store × List StoreCall) :
    ∀ r ∈ (processSet appendFails day ex date s rf wf st).1,
      r ∈ st.1 ∨ r.set_number = s := by
  intro r hr
  cases rf with
  | blank => exact Or.inl hr
  | malformed => exact Or.inl hr
  | value reps =>
    cases wf with
    | blank => exact Or.inl hr
    | malformed => exact Or.inl hr
    | value weight =>
      rw [processSet] at hr
      split at hr
      · split at hr
        · exact Or.inl hr
        · rcases List.mem_append.mp hr with h | h
          · exact Or.inl h
          · right
            rw [List.mem_singleton.mp h]
      · exact Or.inl hr

theorem innerFold_store_sub (appendFails : Bool) (day ex : String) (today : ℤ)
    (form : String → ℤ → RepsField × WeightField) (st : Store × List StoreCall) :
    ∀ r ∈ (([1, 2, 3] : List ℤ).foldl (fun acc2 s =>
        processSet appendFails day ex today s (form ex s).1 (form ex s).2 acc2) st).1,
      r ∈ st.1 ∨ r.set_number = 1 ∨ r.set_number = 2 ∨ r.set_number = 3 := by
  intro r hr
  simp only [List.foldl_cons, List.foldl_nil] at hr
  rcases processSet_store_sub appendFails day ex today 3 _ _ _ r hr with h3 | h3
  · rcases processSet_store_sub appendFails day ex today 2 _ _ _ r h3 with h2 | h2
    · rcases processSet_store_sub appendFails day ex today 1 _ _ _ r h2 with h1 | h1
      · exact Or.inl h1
      · exact Or.inr (Or.inl h1)
    · exact Or.inr (Or.inr (Or.inl h2))
  · exact Or.inr (Or.inr (Or.inr h3))

theorem outerFold_store_sub (appendFails : Bool) (day : String) (today : ℤ)
    (form : String → ℤ → RepsField × WeightField) (exs : List String)
    (st : Store × List StoreCall) :
    ∀ r ∈ (exs.foldl (fun acc ex => ([1, 2, 3] : List ℤ).foldl (fun acc2 s =>
        processSet appendFails day ex today s (form ex s).1 (form ex s).2 acc2) acc) st).1,
      r ∈ st.1 ∨ r.set_number = 1 ∨ r.set_number = 2 ∨ r.set_number = 3 := by
  induction exs generalizing st with
  | nil =>
    intro r hr
    exact Or.inl hr
  | cons e es ih =>
    intro r hr
    rw [List.foldl_cons] at hr
    rcases ih _ r hr with h | h
    · exact innerFold_store_sub appendFails day e today form st r h
    · exact Or.inr h

theorem outerFold_congr (appendFails : Bool) (day : String) (today : ℤ)
    (form form' : String → ℤ → RepsField × WeightField)
    (hagree : ∀ ex s, (s = 1 ∨ s = 2 ∨ s = 3) → form ex s = form' ex s)
    (exs : List String) (st : Store × List StoreCall) :
    exs.foldl (fun acc ex => ([1, 2, 3] : List ℤ).foldl (fun acc2 s =>
        processSet appendFails day ex today s (form ex s).1 (form ex s).2 acc2) acc) st =
    exs.foldl (fun acc ex => ([1, 2, 3] : List ℤ).foldl (fun acc2 s =>
        processSet appendFails day ex today s (form' ex s).1 (form' ex s).2 acc2) acc) st := by
  have hf : (fun (acc : Store × List StoreCall) ex => ([1, 2, 3] : List ℤ).foldl
      (fun acc2 s =>
        processSet appendFails day ex today s (form ex s).1 (form ex s).2 acc2) acc) =
      (fun (acc : Store × List StoreCall) ex => ([1, 2, 3] : List ℤ).foldl
      (fun acc2 s =>
        processSet appendFails day ex today s (form' ex s).1 (form' ex s).2 acc2) acc) := by
    funext acc ex
    simp only [List.foldl_cons, List.foldl_nil]
    rw [hagree ex 1 (Or.inl rfl), hagree ex 2 (Or.inr (Or.inl rfl)),
      hagree ex 3 (Or.inr (Or.inr rfl))]
  rw [hf]

/-- **C10.** Every record the batch-logging POST appends has set_number
1, 2 or 3 — the loop reads only set slots `range(1, 4)`, so any row of
the resulting store is either a pre-existing row or carries a set number
in 1..3 — and submitted data for a fourth or later set slot is ignored:
two forms agreeing on slots 1..3 produce identical responses, stores and
call traces. -/
theorem C10_set_number_range (store : Store) (appendFails isPost : Bool)
    (day : String) (today : ℤ) (form form' : String → ℤ → RepsField × WeightField)
    (hagree : ∀ ex s, (s = 1 ∨ s = 2 ∨ s = 3) → form ex s = form' ex s) :
    (∀ r ∈ (weekly store appendFails isPost day today form).store,
      r ∈ store ∨ r.set_number = 1 ∨ r.set_number = 2 ∨ r.set_number = 3) ∧
    weekly store appendFails isPost day today form =
      weekly store appendFails isPost day today form' := by
  constructor
  · intro r hr
    rw [weekly] at hr
    cases hfind : WORKOUT_PLAN.find? (fun p => p.1 == day) with
    | none =>
      rw [hfind] at hr
      exact Or.inl hr
    | some p =>
      obtain ⟨d, exs⟩ := p
      rw [hfind] at hr
      dsimp only at hr
      by_cases hpost : isPost
      · rw [if_pos hpost] at hr
        dsimp only at hr
        exact outerFold_store_sub appendFails day today form exs (store, [.minDate]) r hr
      · rw [if_neg hpost] at hr
        exact Or.inl hr
  · rw [weekly, weekly]
    cases hfind : WORKOUT_PLAN.find? (fun p => p.1 == day) with
    | none => rfl
    | some p =>
      obtain ⟨d, exs⟩ := p
      dsimp only
      by_cases hpost : isPost
      · rw [if_pos hpost, if_pos hpost,
          outerFold_congr appendFails day today form form' hagree exs]
      · rw [if_neg hpost, if_neg hpost]

/-- Witness for C10: the concrete Push-day submission, with and without
junk data in a fourth set slot. -/
theorem C10_set_number_range_witness :
    (∀ r ∈ (weekly [] false true "Push" 0 pushForm).store,
      r ∈ ([] : Store) ∨ r.set_number = 1 ∨ r.set_number = 2 ∨ r.set_number = 3) ∧
    weekly [] false true "Push" 0 pushForm =
      weekly [] false true "Push" 0 pushFormExtra :=
  C10_set_number_range [] false true "Push" 0 pushForm pushFormExtra
    (by
      intro ex s hs
      rcases hs with h | h | h <;> subst h <;> simp [pushFormExtra])
